import Mathlib

/-!
Shallow embedding of the ArcticAI agent framework (TypeScript).

The embedding follows the source files:
  - src/tool/base.ts      (ToolResult, combineFields)
  - src/tool/planning.ts  (PlanningTool: create/update/list/get/set_active/mark_step/delete)
  - src/schema/message.ts, src/schema/memory.ts, src/schema/state.ts
  - src/agent/base.ts     (BaseAgent: withState, run, isStuck, handleStuckState)
  - src/agent/react.ts, src/agent/toolcall.ts (ReActAgent.step, ToolCallAgent.think/act)

JavaScript conventions modelled explicitly:
  - a `string | null` value is represented as `Option String`; JS truthiness of
    such a value (`if (x)`) is `truthyS`: `null`/missing and the empty string are
    falsy, every other string is truthy;
  - `a || b` on such values is `jsOr`;
  - thrown exceptions become `Except String`; every stateful operation returns
    the state as it stands at the throw point, so "state unchanged on error"
    is a real property of the translation, not an artifact;
  - human-readable success strings built by `formatPlan` use floating-point
    percentage formatting and are display-only; the embedding returns `Unit`
    on success and keeps the error strings, which is all the claims mention.
-/

set_option maxHeartbeats 1000000

namespace ArcticAI

/-- JS truthiness of a `string | null` value: null and `""` are falsy. -/
def truthyS : Option String → Bool
  | Option.none => false
  | Option.some s => if s = "" then false else true

/-- JS `a || b` on `string | null` values. -/
def jsOr (a b : Option String) : Option String :=
  if truthyS a then a else b

/-! ## src/tool/base.ts : ToolResult -/

/-- `ToolResult` from src/tool/base.ts: optional output, error and system
fields (all `string | null`; `output` is `any` in the source but is only ever
a string or null in this repository). -/
structure ToolResult where
  output : Option String
  error : Option String
  system : Option String
  deriving DecidableEq, Repr

/-- The inner `combineFields` helper of `ToolResult.combine`:
if both fields are truthy, concatenate when `concatenate` is set and throw
otherwise; if at most one is truthy, return `field || otherField`. -/
def combineFields (field otherField : Option String) (concatenate : Bool) :
    Except String (Option String) :=
  if truthyS field && truthyS otherField then
    if concatenate then
      Except.ok (Option.some (field.getD "" ++ otherField.getD ""))
    else
      Except.error "Cannot combine tool results"
  else
    Except.ok (jsOr field otherField)

/-- `ToolResult.combine`: combines the three fields pairwise; every call of
`combineFields` uses the default `concatenate = true`. -/
def ToolResult.combine (t other : ToolResult) : Except String ToolResult := do
  let out ← combineFields t.output other.output true
  let err ← combineFields t.error other.error true
  let sys ← combineFields t.system other.system true
  Except.ok (ToolResult.mk out err sys)

/-! ## src/tool/planning.ts : PlanningTool -/

/-- Step status enumeration. -/
inductive StepStatus
  | not_started
  | in_progress
  | completed
  | blocked
  deriving DecidableEq, Repr

/-- A stored plan. -/
structure Plan where
  plan_id : String
  title : String
  steps : List String
  step_statuses : List StepStatus
  step_notes : List String
  deriving DecidableEq, Repr

/-- The planning tool's mutable state: the plan map (insertion-ordered
association list, mirroring a JS `Map`) and the active-plan pointer. -/
structure PlanningState where
  plans : List (String × Plan)
  currentPlanId : Option String
  deriving DecidableEq, Repr

/-- Fresh tool state (`new PlanningTool()`). -/
def PlanningState.init : PlanningState :=
  { plans := [], currentPlanId := Option.none }

/-- `Map.get`: first binding for the key. -/
def lookupPlan : List (String × Plan) → String → Option Plan
  | [], _ => Option.none
  | (k, v) :: rest, key => if k = key then Option.some v else lookupPlan rest key

/-- `Map.set`: replace an existing binding in place or append a new one. -/
def setPlan : List (String × Plan) → String → Plan → List (String × Plan)
  | [], key, v => [(key, v)]
  | (k, w) :: rest, key, v =>
    if k = key then (key, v) :: rest else (k, w) :: setPlan rest key v

/-- `Map.delete`: drop the binding for the key. -/
def erasePlan : List (String × Plan) → String → List (String × Plan)
  | [], _ => []
  | (k, w) :: rest, key => if k = key then rest else (k, w) :: erasePlan rest key

/-- `PlanningTool.createPlan`. JS detail: `!steps` is false for the empty
array (arrays are truthy), and `.every` holds vacuously on `[]`, so an empty
steps list passes the validation despite the error message's wording. -/
def createPlan (st : PlanningState) (planId title : Option String)
    (steps : Option (List String)) : PlanningState × Except String Unit :=
  if truthyS planId = false then
    (st, Except.error "Parameter plan_id is required for command: create")
  else
    let pid := planId.getD ""
    if (lookupPlan st.plans pid).isSome then
      (st, Except.error ("A plan with ID " ++ pid ++ " already exists. Use update to modify existing plans."))
    else if truthyS title = false then
      (st, Except.error "Parameter title is required for command: create")
    else
      match steps with
      | Option.none =>
        (st, Except.error "Parameter steps must be a non-empty list of strings for command: create")
      | Option.some ss =>
        let plan : Plan :=
          { plan_id := pid
            title := title.getD ""
            steps := ss
            step_statuses := List.replicate ss.length StepStatus.not_started
            step_notes := List.replicate ss.length "" }
        ({ plans := setPlan st.plans pid plan, currentPlanId := Option.some pid },
         Except.ok ())

/-- The per-index status recomputation of `PlanningTool.updatePlan`:
for each `i` below the new list's length, keep `oldStatuses[i]` when `i` is in
range of the old steps and the new text equals the old text, else reset.
(The `getD` default is unreachable while statuses stay as long as steps.) -/
def newStatusesFor (newSteps oldSteps : List String)
    (oldStatuses : List StepStatus) : List StepStatus :=
  (List.range newSteps.length).map fun i =>
    if i < oldSteps.length ∧ newSteps[i]? = oldSteps[i]? then
      oldStatuses.getD i StepStatus.not_started
    else
      StepStatus.not_started

/-- The per-index notes recomputation of `PlanningTool.updatePlan`. -/
def newNotesFor (newSteps oldSteps : List String)
    (oldNotes : List String) : List String :=
  (List.range newSteps.length).map fun i =>
    if i < oldSteps.length ∧ newSteps[i]? = oldSteps[i]? then
      oldNotes.getD i ""
    else
      ""

/-- `PlanningTool.updatePlan`. The `Array.isArray`/`typeof` validation of
`steps` is vacuous in the typed embedding. A truthy `title` is written first,
exactly as in the source. -/
def updatePlan (st : PlanningState) (planId title : Option String)
    (steps : Option (List String)) : PlanningState × Except String Unit :=
  if truthyS planId = false then
    (st, Except.error "Parameter plan_id is required for command: update")
  else
    let pid := planId.getD ""
    match lookupPlan st.plans pid with
    | Option.none => (st, Except.error ("No plan found with ID: " ++ pid))
    | Option.some plan =>
      let plan1 := if truthyS title then { plan with title := title.getD "" } else plan
      match steps with
      | Option.none =>
        ({ st with plans := setPlan st.plans pid plan1 }, Except.ok ())
      | Option.some ss =>
        let plan2 : Plan :=
          { plan1 with
            steps := ss
            step_statuses := newStatusesFor ss plan.steps plan.step_statuses
            step_notes := newNotesFor ss plan.steps plan.step_notes }
        ({ st with plans := setPlan st.plans pid plan2 }, Except.ok ())

/-- `PlanningTool.listPlans`: read-only. -/
def listPlans (st : PlanningState) : PlanningState × Except String Unit :=
  (st, Except.ok ())

/-- The plan-id resolution shared by `getPlan` and `markStep`: a falsy
`plan_id` argument falls back to the active plan, failing when there is
none. -/
def resolvePlanId (st : PlanningState) (planId : Option String) :
    Except String String :=
  if truthyS planId then
    Except.ok (planId.getD "")
  else if truthyS st.currentPlanId then
    Except.ok (st.currentPlanId.getD "")
  else
    Except.error "No active plan. Please specify a plan_id or set an active plan."

/-- `PlanningTool.getPlan`: read-only. -/
def getPlan (st : PlanningState) (planId : Option String) :
    PlanningState × Except String Unit :=
  match resolvePlanId st planId with
  | Except.error e => (st, Except.error e)
  | Except.ok pid =>
    match lookupPlan st.plans pid with
    | Option.none => (st, Except.error ("No plan found with ID: " ++ pid))
    | Option.some _ => (st, Except.ok ())

/-- `PlanningTool.setActivePlan`. -/
def setActivePlan (st : PlanningState) (planId : Option String) :
    PlanningState × Except String Unit :=
  if truthyS planId = false then
    (st, Except.error "Parameter plan_id is required for command: set_active")
  else
    let pid := planId.getD ""
    match lookupPlan st.plans pid with
    | Option.none => (st, Except.error ("No plan found with ID: " ++ pid))
    | Option.some _ =>
      ({ st with currentPlanId := Option.some pid }, Except.ok ())

/-- `PlanningTool.markStep`. `step_index` is a JS number and may be negative,
hence `Int`. All throws happen before any mutation. A falsy (`null` or `""`)
`step_notes` is not written, so notes are never cleared here; the status-enum
validation is vacuous in the typed embedding. -/
def markStep (st : PlanningState) (planId : Option String)
    (stepIndex : Option Int) (stepStatus : Option StepStatus)
    (stepNotes : Option String) : PlanningState × Except String Unit :=
  match resolvePlanId st planId with
  | Except.error e => (st, Except.error e)
  | Except.ok pid =>
    match lookupPlan st.plans pid with
    | Option.none => (st, Except.error ("No plan found with ID: " ++ pid))
    | Option.some plan =>
      match stepIndex with
      | Option.none =>
        (st, Except.error "Parameter step_index is required for command: mark_step")
      | Option.some idx =>
        if idx < 0 ∨ (plan.steps.length : Int) ≤ idx then
          (st, Except.error ("Invalid step_index: " ++ toString idx))
        else
          let plan1 :=
            match stepStatus with
            | Option.some s =>
              { plan with step_statuses := plan.step_statuses.set idx.toNat s }
            | Option.none => plan
          let plan2 :=
            if truthyS stepNotes then
              { plan1 with step_notes := plan1.step_notes.set idx.toNat (stepNotes.getD "") }
            else plan1
          ({ st with plans := setPlan st.plans pid plan2 }, Except.ok ())

/-- `PlanningTool.deletePlan`. -/
def deletePlan (st : PlanningState) (planId : Option String) :
    PlanningState × Except String Unit :=
  if truthyS planId = false then
    (st, Except.error "Parameter plan_id is required for command: delete")
  else
    let pid := planId.getD ""
    match lookupPlan st.plans pid with
    | Option.none => (st, Except.error ("No plan found with ID: " ++ pid))
    | Option.some _ =>
      let st1 : PlanningState := { st with plans := erasePlan st.plans pid }
      if st1.currentPlanId = Option.some pid then
        ({ st1 with currentPlanId := Option.none }, Except.ok ())
      else
        (st1, Except.ok ())

/-- A planning-tool command with its arguments (`PlanningTool.execute`). -/
inductive PCommand
  | create (plan_id title : Option String) (steps : Option (List String))
  | update (plan_id title : Option String) (steps : Option (List String))
  | list
  | get (plan_id : Option String)
  | set_active (plan_id : Option String)
  | mark_step (plan_id : Option String) (step_index : Option Int)
      (step_status : Option StepStatus) (step_notes : Option String)
  | delete (plan_id : Option String)
  deriving DecidableEq, Repr

/-- `PlanningTool.execute`: dispatch on the command. -/
def executeCmd (st : PlanningState) : PCommand → PlanningState × Except String Unit
  | PCommand.create pid title steps => createPlan st pid title steps
  | PCommand.update pid title steps => updatePlan st pid title steps
  | PCommand.list => listPlans st
  | PCommand.get pid => getPlan st pid
  | PCommand.set_active pid => setActivePlan st pid
  | PCommand.mark_step pid idx status notes => markStep st pid idx status notes
  | PCommand.delete pid => deletePlan st pid

/-- Run a sequence of commands, threading the state (errors keep the state
as the implementation left it at the throw point). -/
def executeCmds (st : PlanningState) (cmds : List PCommand) : PlanningState :=
  cmds.foldl (fun s c => (executeCmd s c).1) st

/-- The parallel-lists invariant of the plan store. -/
def planInvariant (st : PlanningState) : Prop :=
  ∀ pr ∈ st.plans, pr.2.steps.length = pr.2.step_statuses.length ∧
    pr.2.steps.length = pr.2.step_notes.length

/-! ## src/schema : Message, Memory, AgentState -/

/-- `src/schema/state.ts`: agent lifecycle states. -/
inductive AgentState
  | IDLE
  | RUNNING
  | FINISHED
  | ERROR
  deriving DecidableEq, Repr

/-- The string value of an `AgentState` enum member. -/
def AgentState.str : AgentState → String
  | AgentState.IDLE => "IDLE"
  | AgentState.RUNNING => "RUNNING"
  | AgentState.FINISHED => "FINISHED"
  | AgentState.ERROR => "ERROR"

/-- Message roles. -/
inductive Role
  | system
  | user
  | assistant
  | tool
  deriving DecidableEq, Repr

/-- `src/schema/message.ts`: a tool call carried by a message
(`function.name` is flattened to `fname`, `function.arguments` to `args`). -/
structure ToolCall where
  id : String
  fname : String
  args : String
  deriving DecidableEq, Repr

/-- `src/schema/message.ts`: a conversation message. The constructor only
sets `tool_calls` / `name` / `tool_call_id` when its argument is truthy,
hence the `Option` types. -/
structure Message where
  role : Role
  content : Option String
  tool_calls : Option (List ToolCall)
  name : Option String
  tool_call_id : Option String
  deriving DecidableEq, Repr

/-- `Message.userMessage`. -/
def Message.userMessage (content : String) : Message :=
  { role := Role.user, content := Option.some content,
    tool_calls := Option.none, name := Option.none, tool_call_id := Option.none }

/-- `Message.systemMessage`. -/
def Message.systemMessage (content : String) : Message :=
  { role := Role.system, content := Option.some content,
    tool_calls := Option.none, name := Option.none, tool_call_id := Option.none }

/-- `Message.assistantMessage` (content defaults to null). -/
def Message.assistantMessage (content : Option String) : Message :=
  { role := Role.assistant, content := content,
    tool_calls := Option.none, name := Option.none, tool_call_id := Option.none }

/-- `Message.toolMessage`: the constructor's `if (name)` / `if (tool_call_id)`
guards drop falsy values. -/
def Message.toolMessage (content name tool_call_id : String) : Message :=
  { role := Role.tool, content := Option.some content,
    tool_calls := Option.none,
    name := if name = "" then Option.none else Option.some name,
    tool_call_id := if tool_call_id = "" then Option.none else Option.some tool_call_id }

/-- `Message.fromToolCalls`: an assistant message carrying tool calls. A JS
array is truthy even when empty, so `tool_calls` is always set here. (The
`content = ""` default applies only to `undefined`, never to `null`, so a
null response content stays null.) -/
def Message.fromToolCalls (tool_calls : List ToolCall) (content : Option String) : Message :=
  { role := Role.assistant, content := content,
    tool_calls := Option.some tool_calls,
    name := Option.none, tool_call_id := Option.none }

/-- `src/schema/memory.ts`: bounded message history. -/
structure MemoryS where
  messages : List Message
  maxMessages : Nat
  deriving DecidableEq, Repr

/-- `Memory.addMessage`: append, then keep only the last `maxMessages`
(`slice(-maxMessages)`). -/
def MemoryS.addMessage (m : MemoryS) (msg : Message) : MemoryS :=
  let ms := m.messages ++ [msg]
  if m.maxMessages < ms.length then
    { m with messages := ms.drop (ms.length - m.maxMessages) }
  else
    { m with messages := ms }

/-! ## src/agent/base.ts : BaseAgent -/

/-- The mutable fields of `BaseAgent` the control flow touches. -/
structure AgentS where
  name : String
  state : AgentState
  memory : MemoryS
  nextStepPrompt : Option String
  maxSteps : Nat
  currentStep : Nat
  duplicateThreshold : Nat
  deriving DecidableEq, Repr

/-- The type of the abstract `step()` operation: it may update the whole
agent and either returns a result string or throws. -/
def StepFn : Type := AgentS → AgentS × Except String String

/-- `BaseAgent.withState`: set the new state, run the body; a thrown error
sets state to `ERROR` in the `catch`, and the `finally` then restores the
previous state in every case (so the `ERROR` write is immediately
overwritten). The `Object.values(...).includes` guard is vacuous in the
typed embedding. -/
def withState (a : AgentS) (newState : AgentState)
    (body : AgentS → AgentS × Except String String) :
    AgentS × Except String String :=
  let previousState := a.state
  let a1 := { a with state := newState }
  match body a1 with
  | (a2, Except.ok v) =>
    ({ a2 with state := previousState }, Except.ok v)
  | (a2, Except.error e) =>
    let a3 := { a2 with state := AgentState.ERROR }
    ({ a3 with state := previousState }, Except.error e)

/-- `BaseAgent.isStuck`: fewer than two messages, or a falsy last content,
means not stuck; otherwise count earlier assistant messages whose content
equals the last message's content and compare with the threshold. -/
def isStuck (a : AgentS) : Bool :=
  if a.memory.messages.length < 2 then false
  else
    match a.memory.messages.getLast? with
    | Option.none => false
    | Option.some lastMessage =>
      if truthyS lastMessage.content = false then false
      else
        let dup := a.memory.messages.dropLast.countP fun m =>
          decide (m.role = Role.assistant ∧ m.content = lastMessage.content)
        decide (a.duplicateThreshold ≤ dup)

/-- The stuck-recovery instruction of `BaseAgent.handleStuckState` (the
source uses a line-continuation string literal with four leading spaces). -/
def stuckPrompt : String :=
  "    Observed duplicate responses. Consider new strategies and avoid repeating ineffective paths already attempted."

/-- The rendering of a `string | undefined` inside a JS template literal:
an undefined value renders as the text "undefined". -/
def jsTemplateStr : Option String → String
  | Option.some s => s
  | Option.none => "undefined"

/-- `BaseAgent.handleStuckState`: prefix the stuck instruction to the
next-step prompt via a template literal (an undefined prompt renders as the
string "undefined"). -/
def handleStuckState (a : AgentS) : AgentS :=
  { a with nextStepPrompt :=
      Option.some (stuckPrompt ++ "\n" ++ jsTemplateStr a.nextStepPrompt) }

/-- The `while` loop of `BaseAgent.run`, with explicit fuel (the source loop
need not terminate for an adversarial `step`; every claim quantifies over or
instantiates the fuel). Each iteration increments `currentStep`, runs
`step()`, applies stuck handling, and appends a step summary built from the
post-step counter value. A thrown step error propagates immediately. -/
def runLoop (step : StepFn) : Nat → AgentS → List String →
    AgentS × Except String (List String)
  | 0, a, results => (a, Except.ok results)
  | fuel + 1, a, results =>
    if a.currentStep < a.maxSteps ∧ a.state ≠ AgentState.FINISHED then
      let a1 := { a with currentStep := a.currentStep + 1 }
      match step a1 with
      | (a2, Except.error e) => (a2, Except.error e)
      | (a2, Except.ok stepResult) =>
        let a3 := if isStuck a2 then handleStuckState a2 else a2
        runLoop step fuel a3
          (results ++ ["Step " ++ toString a3.currentStep ++ ": " ++ stepResult])
    else
      (a, Except.ok results)

/-- The async closure `BaseAgent.run` passes to `withState`: run the loop;
afterwards append the max-steps marker when the counter has reached the
ceiling and join the results (or return the no-steps placeholder). -/
def runBody (step : StepFn) (fuel : Nat) (b : AgentS) :
    AgentS × Except String String :=
  match runLoop step fuel b [] with
  | (b2, Except.error e) => (b2, Except.error e)
  | (b2, Except.ok results) =>
    let results2 :=
      if b2.maxSteps ≤ b2.currentStep then
        results ++ ["Terminated: Reached max steps (" ++ toString b2.maxSteps ++ ")"]
      else results
    (b2, Except.ok (if results2.length ≠ 0 then String.intercalate "\n" results2
                    else "No steps executed"))

/-- `BaseAgent.run`: refuse to start unless idle, append a truthy initial
request as a user message, then run `runBody` under
`withState(RUNNING, ...)`. -/
def run (step : StepFn) (fuel : Nat) (a : AgentS) (request : Option String) :
    AgentS × Except String String :=
  if a.state ≠ AgentState.IDLE then
    (a, Except.error ("Cannot run agent from state: " ++ a.state.str))
  else
    let a1 :=
      if truthyS request then
        { a with memory := a.memory.addMessage (Message.userMessage (request.getD "")) }
      else a
    withState a1 AgentState.RUNNING (runBody step fuel)

/-! ## src/agent/toolcall.ts : ToolCallAgent -/

/-- The three tool-choice policies. -/
inductive ToolChoice
  | none
  | auto
  | required
  deriving DecidableEq, Repr

/-- A model response at the LLM boundary: optional text content and an
optional list of proposed tool calls. -/
structure LLMResponse where
  content : Option String
  tool_calls : Option (List ToolCall)
  deriving DecidableEq, Repr

/-- The tool-related fields of `ToolCallAgent` on top of the base agent. -/
structure TCAgentS where
  agent : AgentS
  toolChoices : ToolChoice
  toolCalls : List ToolCall
  deriving DecidableEq, Repr

/-- `this.messages.push(msg)`: a raw push through the `messages` getter,
bypassing the `maxMessages` cap of `Memory.addMessage`. -/
def pushMessageRaw (a : AgentS) (m : Message) : AgentS :=
  { a with memory := { a.memory with messages := a.memory.messages ++ [m] } }

/-- `ToolCallAgent.think`. The LLM boundary is an input: `resp` is either
the model response or the thrown boundary error handled by the `catch`
block. The truthy next-step prompt is pushed (uncapped) before the `try`.
In `none` mode the proposed calls are left in `toolCalls` — only a warning
is logged — and the return value depends on the content's truthiness; the
other modes append an assistant message first. -/
def think (t : TCAgentS) (resp : Except String LLMResponse) : TCAgentS × Bool :=
  let t1 :=
    if truthyS t.agent.nextStepPrompt then
      { t with agent := pushMessageRaw t.agent (Message.userMessage (t.agent.nextStepPrompt.getD "")) }
    else t
  match resp with
  | Except.error e =>
    ({ t1 with agent := { t1.agent with memory := t1.agent.memory.addMessage (Message.assistantMessage (Option.some ("Error encountered while processing: " ++ e))) } },
     false)
  | Except.ok response =>
    let t2 := { t1 with toolCalls := response.tool_calls.getD [] }
    if t2.toolChoices = ToolChoice.none then
      if truthyS response.content then
        ({ t2 with agent := { t2.agent with memory := t2.agent.memory.addMessage (Message.assistantMessage response.content) } }, true)
      else
        (t2, false)
    else
      let assistantMsg :=
        if 0 < t2.toolCalls.length then
          Message.fromToolCalls t2.toolCalls response.content
        else
          Message.assistantMessage response.content
      let t3 := { t2 with agent := { t2.agent with memory := t2.agent.memory.addMessage assistantMsg } }
      if t3.toolChoices = ToolChoice.required ∧ t3.toolCalls.length = 0 then
        (t3, true)
      else if t3.toolChoices = ToolChoice.auto ∧ t3.toolCalls.length = 0 then
        (t3, truthyS response.content)
      else
        (t3, decide (0 < t3.toolCalls.length))

/-- The `for (const command of this.toolCalls)` loop of `ToolCallAgent.act`:
execute each call, append the tool-role message keyed by the call's id, and
collect the result strings. `executeTool` (JSON parsing, registry lookup,
special-tool handling) is abstracted as a function argument. -/
def actLoop (executeTool : TCAgentS → ToolCall → TCAgentS × String) :
    TCAgentS → List ToolCall → List String → TCAgentS × Except String String
  | t, [], results => (t, Except.ok (String.intercalate "\n\n" results))
  | t, command :: rest, results =>
    let (t1, result) := executeTool t command
    let t2 := { t1 with agent := { t1.agent with memory := t1.agent.memory.addMessage (Message.toolMessage result command.fname command.id) } }
    actLoop executeTool t2 rest (results ++ [result])

/-- `ToolCallAgent.act`: with no pending tool calls, `required` mode throws
and the other modes return the last message's content (or a placeholder);
otherwise every pending call is executed in order. -/
def act (executeTool : TCAgentS → ToolCall → TCAgentS × String)
    (t : TCAgentS) : TCAgentS × Except String String :=
  if t.toolCalls.length = 0 then
    if t.toolChoices = ToolChoice.required then
      (t, Except.error "Tool calls required but none provided")
    else
      (t, Except.ok ((jsOr ((t.agent.memory.messages.getLast?).bind Message.content)
          (Option.some "No content or commands to execute")).getD
          "No content or commands to execute"))
  else
    actLoop executeTool t t.toolCalls []

/-- `ReActAgent.step`: think, then act only when thinking asks for it. -/
def reactStep (executeTool : TCAgentS → ToolCall → TCAgentS × String)
    (t : TCAgentS) (resp : Except String LLMResponse) : TCAgentS × Except String String :=
  let (t1, shouldAct) := think t resp
  if shouldAct = false then
    (t1, Except.ok "Thinking complete - no action needed")
  else
    act executeTool t1

/-! ## Spec-side definitions (refinement comparisons)

These definitions follow the wording of the specification, to be compared
with the definitions translated from the source. -/

/-- Spec's stuck condition as the claim words it: at least two messages, the
most recent message's content is NON-NULL, and the number of prior
assistant-role messages with exactly that content reaches the duplicate
threshold. -/
def isStuckSpecClaim (a : AgentS) : Bool :=
  match a.memory.messages.getLast? with
  | Option.none => false
  | Option.some lastMessage =>
    decide (2 ≤ a.memory.messages.length) &&
    decide (lastMessage.content ≠ Option.none) &&
    decide (a.duplicateThreshold ≤ a.memory.messages.dropLast.countP fun m =>
      decide (m.role = Role.assistant ∧ m.content = lastMessage.content))

/-- The amended stuck condition: as `isStuckSpecClaim`, but the most recent
message's content must be truthy (non-null AND non-empty), matching the
implementation's `if (!lastMessage.content)` guard. -/
def isStuckSpecAmended (a : AgentS) : Bool :=
  match a.memory.messages.getLast? with
  | Option.none => false
  | Option.some lastMessage =>
    decide (2 ≤ a.memory.messages.length) &&
    truthyS lastMessage.content &&
    decide (a.duplicateThreshold ≤ a.memory.messages.dropLast.countP fun m =>
      decide (m.role = Role.assistant ∧ m.content = lastMessage.content))

/-- The pure value produced by `combineFields` when `concatenate` is set:
concatenation when both fields are truthy, otherwise `field || otherField`. -/
def combineFieldsVal (field otherField : Option String) : Option String :=
  if truthyS field && truthyS otherField then
    Option.some (field.getD "" ++ otherField.getD "")
  else
    jsOr field otherField

/-! ## Concrete instances for witnesses and counterexamples -/

/-- A fresh idle agent with the constructor defaults
(`maxSteps = 10`, `duplicateThreshold = 2`, `maxMessages = 100`). -/
def agent0 : AgentS :=
  { name := "a", state := AgentState.IDLE,
    memory := { messages := [], maxMessages := 100 },
    nextStepPrompt := Option.none,
    maxSteps := 10, currentStep := 0, duplicateThreshold := 2 }

/-- A step implementation that always throws. -/
def stepThrow : StepFn := fun s => (s, Except.error "boom")

/-- A step implementation that does nothing. -/
def stepNoop : StepFn := fun s => (s, Except.ok "x")

/-- `agent0` whose step counter has already reached `maxSteps`. -/
def agentMaxed : AgentS := { agent0 with currentStep := 10 }

/-- An assistant message whose content is the empty string (non-null but
falsy). -/
def emptyAssistantMsg : Message := Message.assistantMessage (Option.some "")

/-- An agent whose memory is three assistant messages with empty-string
content: the claim's non-null reading calls it stuck, the code does not. -/
def agentStuckEmpty : AgentS :=
  { agent0 with memory :=
      { messages := [emptyAssistantMsg, emptyAssistantMsg, emptyAssistantMsg],
        maxMessages := 100 } }

/-- An assistant message with truthy content "x". -/
def xAssistantMsg : Message := Message.assistantMessage (Option.some "x")

/-- An agent that is genuinely stuck: three assistant messages with the same
truthy content and threshold 2. -/
def agentStuckTruthy : AgentS :=
  { agent0 with memory :=
      { messages := [xAssistantMsg, xAssistantMsg, xAssistantMsg],
        maxMessages := 100 } }

/-- A step implementation that lands the agent in the stuck configuration. -/
def stepToStuck : StepFn := fun _ => (agentStuckTruthy, Except.ok "r")

/-- A two-step plan with distinct statuses and notes. -/
def planEx : Plan :=
  { plan_id := "p1", title := "T", steps := ["a", "b"],
    step_statuses := [StepStatus.in_progress, StepStatus.completed],
    step_notes := ["n1", "n2"] }

/-- A store holding `planEx` as the active plan. -/
def stEx : PlanningState :=
  { plans := [("p1", planEx)], currentPlanId := Option.some "p1" }

/-- A concrete proposed tool call. -/
def tcEx : ToolCall := { id := "call_1", fname := "echo", args := "" }

/-- A model response proposing one tool call alongside text content. -/
def respEx : LLMResponse :=
  { content := Option.some "hello", tool_calls := Option.some [tcEx] }

/-- A fresh `ToolCallAgent` with tool-choice policy `none`. -/
def tcAgent0 : TCAgentS :=
  { agent := agent0, toolChoices := ToolChoice.none, toolCalls := [] }

/-- A recording tool executor. -/
def execToolEx : TCAgentS → ToolCall → TCAgentS × String :=
  fun t c => (t, "ran " ++ c.fname)

/-! ## Theorems -/

/-- C2 (code bug): `create` with an empty steps list is supposed to fail
("steps must be a non-empty list of strings"), but the implementation's
`!steps` test is false for the truthy empty array and `every` holds
vacuously, so the call succeeds and stores an active zero-step plan. -/
theorem createPlan_empty_steps_accepted :
    (createPlan PlanningState.init (Option.some "p") (Option.some "t") (Option.some [])).2 = Except.ok () ∧
    lookupPlan (createPlan PlanningState.init (Option.some "p") (Option.some "t") (Option.some [])).1.plans "p" =
      Option.some { plan_id := "p", title := "t", steps := [], step_statuses := [], step_notes := [] } ∧
    (createPlan PlanningState.init (Option.some "p") (Option.some "t") (Option.some [])).1.currentPlanId =
      Option.some "p" := by
  refine ⟨rfl, ?_, rfl⟩
  rfl

/-- C3 (code bug): with tool-choice `none`, `think` leaves the proposed tool
calls in `toolCalls` (only a warning is logged) and returns true because the
response has content; the subsequent `act` inside `step` therefore executes
the supposedly discarded call, appending a tool-role message and returning
its result. -/
theorem toolcall_none_mode_executes_tools :
    (think tcAgent0 (Except.ok respEx)).2 = true ∧
    (think tcAgent0 (Except.ok respEx)).1.toolCalls = [tcEx] ∧
    (reactStep execToolEx tcAgent0 (Except.ok respEx)).2 = Except.ok "ran echo" ∧
    (reactStep execToolEx tcAgent0 (Except.ok respEx)).1.agent.memory.messages.countP
      (fun m => decide (m.role = Role.tool)) = 1 := by
  refine ⟨rfl, rfl, rfl, rfl⟩

/-- C1 (counterexample): an idle agent whose step throws. `run` propagates
the error, but the agent's state afterwards is `IDLE` (the pre-run value),
not `ERROR`: the `finally` in `withState` overwrites the `catch`'s `ERROR`
assignment. -/
theorem run_error_state_not_error_cex :
    (run stepThrow 1 agent0 Option.none).2 = Except.error "boom" ∧
    (run stepThrow 1 agent0 Option.none).1.state = AgentState.IDLE ∧
    AgentState.IDLE ≠ AgentState.ERROR :=
  ⟨rfl, rfl, by decide⟩

/-- C1 (amended): if an unhandled error is thrown by `step()` inside the run
loop, `run` propagates the error to the caller, and the agent's state after
the call equals its pre-run value (the transient `running → error` write in
the `catch` is immediately undone by the `finally` restore); the state is
never left as `error`. -/
theorem run_error_propagates_state_restored (step : StepFn) (fuel : Nat)
    (a : AgentS) (req : Option String) (e : String)
    (hidle : a.state = AgentState.IDLE)
    (hlt : a.currentStep < a.maxSteps)
    (hstep : ∀ s, step s = (s, Except.error e)) :
    (run step (fuel + 1) a req).2 = Except.error e ∧
    (run step (fuel + 1) a req).1.state = a.state := by
  by_cases hreq : truthyS req = true
  · simp [run, hidle, hreq, withState, runBody, runLoop, hlt, hstep]
  · simp [run, hidle, hreq, withState, runBody, runLoop, hlt, hstep]

/-- C1 witness. -/
theorem run_error_propagates_state_restored_witness :
    (run stepThrow 1 agent0 Option.none).2 = Except.error "boom" ∧
    (run stepThrow 1 agent0 Option.none).1.state = agent0.state :=
  run_error_propagates_state_restored stepThrow 0 agent0 Option.none "boom"
    rfl (by decide) (fun _ => rfl)

/-- C7 (counterexample): a memory of three assistant messages whose content
is the empty string. The claim's reading ("non-null content") makes the
agent stuck, but `isStuck` returns false because the implementation's
`if (!lastMessage.content)` also rejects the empty string. -/
theorem isStuck_nonnull_content_cex :
    isStuckSpecClaim agentStuckEmpty = true ∧ isStuck agentStuckEmpty = false :=
  ⟨rfl, rfl⟩

/-- C7 (amended): `isStuck` returns true iff the memory holds at least two
messages, the most recent message's content is truthy (non-null AND
non-empty), and the number of prior assistant messages with exactly that
content reaches the duplicate threshold; and when a run-loop iteration's
step leaves the agent stuck, the loop continues with `handleStuckState`
applied, which prefixes the corrective instruction to the next-step
prompt. -/
theorem isStuck_matches_amended_spec_and_prompt_prefixed
    (b a a2 : AgentS) (step : StepFn) (fuel : Nat) (res : List String) (r : String)
    (hlt : a.currentStep < a.maxSteps)
    (hfin : a.state ≠ AgentState.FINISHED)
    (hstep : step { a with currentStep := a.currentStep + 1 } = (a2, Except.ok r))
    (hstuck : isStuck a2 = true) :
    isStuck b = isStuckSpecAmended b ∧
    runLoop step (fuel + 1) a res =
      runLoop step fuel (handleStuckState a2)
        (res ++ ["Step " ++ toString (handleStuckState a2).currentStep ++ ": " ++ r]) ∧
    (handleStuckState a2).nextStepPrompt =
      Option.some (stuckPrompt ++ "\n" ++ jsTemplateStr a2.nextStepPrompt) := by
  refine ⟨?_, ?_, rfl⟩
  · unfold isStuck isStuckSpecAmended
    rcases h : b.memory.messages.getLast? with _ | lastMessage
    · simp
    · by_cases hlen : b.memory.messages.length < 2
      · have h2 : ¬ (2 ≤ b.memory.messages.length) := by omega
        simp [hlen, h2]
      · have h2 : 2 ≤ b.memory.messages.length := by omega
        by_cases ht : truthyS lastMessage.content = true
        · simp [hlen, h2, ht]
        · simp [hlen, h2, ht]
  · simp [runLoop, hlt, hfin, hstep, hstuck]

/-- C7 witness. -/
theorem isStuck_matches_amended_spec_and_prompt_prefixed_witness :
    isStuck agent0 = isStuckSpecAmended agent0 ∧
    runLoop stepToStuck 1 agent0 [] =
      runLoop stepToStuck 0 (handleStuckState agentStuckTruthy)
        ([] ++ ["Step " ++ toString (handleStuckState agentStuckTruthy).currentStep ++ ": " ++ "r"]) ∧
    (handleStuckState agentStuckTruthy).nextStepPrompt =
      Option.some (stuckPrompt ++ "\n" ++ jsTemplateStr agentStuckTruthy.nextStepPrompt) :=
  isStuck_matches_amended_spec_and_prompt_prefixed agent0 agent0 agentStuckTruthy
    stepToStuck 0 [] "r" (by decide) (by decide) rfl (by decide)

/-- The run loop never lowers the step counter when `step()` does not. -/
theorem runLoop_currentStep_mono (step : StepFn)
    (hmono : ∀ s, s.currentStep ≤ (step s).1.currentStep) :
    ∀ (fuel : Nat) (a : AgentS) (res : List String),
      a.currentStep ≤ (runLoop step fuel a res).1.currentStep := by
  intro fuel
  induction fuel with
  | zero => intro a res; simp [runLoop]
  | succ n ih =>
    intro a res
    simp only [runLoop]
    by_cases hc : a.currentStep < a.maxSteps ∧ a.state ≠ AgentState.FINISHED
    · rw [if_pos hc]
      rcases hstep : step { a with currentStep := a.currentStep + 1 } with ⟨a2, r⟩
      have hle : a.currentStep + 1 ≤ a2.currentStep := by
        have := hmono { a with currentStep := a.currentStep + 1 }
        rw [hstep] at this
        exact this
      cases r with
      | error e => simpa using Nat.le_of_succ_le hle
      | ok stepResult =>
        dsimp only
        by_cases hs : isStuck a2 = true
        · rw [if_pos hs]
          have := ih (handleStuckState a2)
            (res ++ ["Step " ++ toString (handleStuckState a2).currentStep ++ ": " ++ stepResult])
          refine Nat.le_trans (Nat.le_of_succ_le hle) ?_
          simpa [handleStuckState] using this
        · rw [if_neg hs]
          have := ih a2
            (res ++ ["Step " ++ toString a2.currentStep ++ ": " ++ stepResult])
          exact Nat.le_trans (Nat.le_of_succ_le hle) this
    · rw [if_neg hc]

/-- The run loop is a no-op once the counter has reached the ceiling. -/
theorem runLoop_done (step : StepFn) (fuel : Nat) (a : AgentS) (res : List String)
    (h : ¬ a.currentStep < a.maxSteps) :
    runLoop step fuel a res = (a, Except.ok res) := by
  cases fuel with
  | zero => rfl
  | succ n => simp [runLoop, h]

/-- `withState` returns the body's result with the previous state
restored. -/
theorem withState_spec (a : AgentS) (ns : AgentState)
    (body : AgentS → AgentS × Except String String) :
    withState a ns body =
      ({ (body { a with state := ns }).1 with state := a.state },
        (body { a with state := ns }).2) := by
  simp only [withState]
  rcases h : body { a with state := ns } with ⟨a2, r⟩
  cases r <;> simp

/-- `runBody` never lowers the step counter when `step()` does not. -/
theorem runBody_currentStep_mono (step : StepFn)
    (hmono : ∀ s, s.currentStep ≤ (step s).1.currentStep)
    (fuel : Nat) (b : AgentS) :
    b.currentStep ≤ (runBody step fuel b).1.currentStep := by
  unfold runBody
  have hm := runLoop_currentStep_mono step hmono fuel b []
  rcases hres : runLoop step fuel b [] with ⟨b2, r⟩
  rw [hres] at hm
  cases r <;> simpa using hm

/-- `runBody` with the counter at the ceiling returns the max-steps marker
without touching the agent. -/
theorem runBody_done (step : StepFn) (fuel : Nat) (b : AgentS)
    (h : ¬ b.currentStep < b.maxSteps) :
    runBody step fuel b =
      (b, Except.ok ("Terminated: Reached max steps (" ++ toString b.maxSteps ++ ")")) := by
  have hmax : b.maxSteps ≤ b.currentStep := by omega
  simp [runBody, runLoop_done step fuel b [] h, hmax,
    String.intercalate, String.intercalate.go]

/-- C10: `run` never resets the step counter: whenever `step()` is
non-decreasing on it, the counter after `run` is at least its prior value;
and an idle agent whose counter has already reached `maxSteps` executes zero
steps — `run` returns exactly the max-steps marker, leaving the agent
unchanged except for the optional initial request message, with the state
restored to `IDLE`. -/
theorem run_never_resets_currentStep (step : StepFn) (fuel : Nat) (a : AgentS)
    (req : Option String)
    (hmono : ∀ s, s.currentStep ≤ (step s).1.currentStep)
    (hidle : a.state = AgentState.IDLE) :
    a.currentStep ≤ (run step fuel a req).1.currentStep ∧
    (a.maxSteps ≤ a.currentStep →
      run step fuel a req =
        ({ (if truthyS req then
              { a with memory := a.memory.addMessage (Message.userMessage (req.getD "")) }
            else a) with state := AgentState.IDLE },
         Except.ok ("Terminated: Reached max steps (" ++ toString a.maxSteps ++ ")"))) := by
  constructor
  · simp only [run]
    rw [if_neg (by simp [hidle])]
    rw [withState_spec]
    by_cases hreq : truthyS req = true
    · rw [if_pos hreq]
      have h := runBody_currentStep_mono step hmono fuel
        { a with
          memory := a.memory.addMessage (Message.userMessage (req.getD "")),
          state := AgentState.RUNNING }
      simpa using h
    · rw [if_neg hreq]
      have h := runBody_currentStep_mono step hmono fuel
        { a with state := AgentState.RUNNING }
      simpa using h
  · intro hmax
    have hnot : ¬ a.currentStep < a.maxSteps := by omega
    simp only [run]
    rw [if_neg (by simp [hidle])]
    by_cases hreq : truthyS req = true
    · simp [hreq, withState_spec, runBody_done, hnot, hidle]
    · simp [hreq, withState_spec, runBody_done, hnot, hidle]

/-- Looking up the key just stored finds the stored plan. -/
theorem lookupPlan_setPlan_self (ps : List (String × Plan)) (k : String) (v : Plan) :
    lookupPlan (setPlan ps k v) k = Option.some v := by
  induction ps with
  | nil => simp [setPlan, lookupPlan]
  | cons hd tl ih =>
    rcases hd with ⟨k0, w⟩
    by_cases h : k0 = k
    · simp [setPlan, h, lookupPlan]
    · simp [setPlan, h, lookupPlan, ih]

/-- Storing under one key leaves lookups of other keys unchanged. -/
theorem lookupPlan_setPlan_ne (ps : List (String × Plan)) (k k' : String) (v : Plan)
    (h : k' ≠ k) :
    lookupPlan (setPlan ps k v) k' = lookupPlan ps k' := by
  induction ps with
  | nil => simp [setPlan, lookupPlan, Ne.symm h]
  | cons hd tl ih =>
    rcases hd with ⟨k0, w⟩
    by_cases hk : k0 = k
    · subst hk
      simp [setPlan, lookupPlan, Ne.symm h]
    · simp [setPlan, hk, lookupPlan, ih]

/-- Every binding after a store is the stored one or an old one. -/
theorem mem_setPlan (ps : List (String × Plan)) (k : String) (v : Plan)
    (pr : String × Plan) (h : pr ∈ setPlan ps k v) :
    pr = (k, v) ∨ pr ∈ ps := by
  induction ps with
  | nil => simpa [setPlan] using h
  | cons hd tl ih =>
    rcases hd with ⟨k0, w⟩
    by_cases hk : k0 = k
    · rw [setPlan, if_pos hk] at h
      rcases List.mem_cons.mp h with h1 | h1
      · exact Or.inl h1
      · exact Or.inr (List.mem_cons_of_mem _ h1)
    · rw [setPlan, if_neg hk] at h
      rcases List.mem_cons.mp h with h1 | h1
      · exact Or.inr (h1 ▸ List.mem_cons_self _ _)
      · rcases ih h1 with h2 | h2
        · exact Or.inl h2
        · exact Or.inr (List.mem_cons_of_mem _ h2)

/-- Every binding surviving a delete was already present. -/
theorem mem_erasePlan (ps : List (String × Plan)) (k : String)
    (pr : String × Plan) (h : pr ∈ erasePlan ps k) : pr ∈ ps := by
  induction ps with
  | nil => simp [erasePlan] at h
  | cons hd tl ih =>
    rcases hd with ⟨k0, w⟩
    by_cases hk : k0 = k
    · rw [erasePlan, if_pos hk] at h
      exact List.mem_cons_of_mem _ h
    · rw [erasePlan, if_neg hk] at h
      rcases List.mem_cons.mp h with h1 | h1
      · exact h1 ▸ List.mem_cons_self _ _
      · exact List.mem_cons_of_mem _ (ih h1)

/-- A successful lookup witnesses membership. -/
theorem lookupPlan_mem (ps : List (String × Plan)) (k : String) (v : Plan)
    (h : lookupPlan ps k = Option.some v) : (k, v) ∈ ps := by
  induction ps with
  | nil => simp [lookupPlan] at h
  | cons hd tl ih =>
    rcases hd with ⟨k0, w⟩
    by_cases hk : k0 = k
    · rw [lookupPlan, if_pos hk] at h
      cases h
      exact hk ▸ List.mem_cons_self _ _
    · rw [lookupPlan, if_neg hk] at h
      exact List.mem_cons_of_mem _ (ih h)

/-- Length of the recomputed status list. -/
theorem newStatusesFor_length (ns os : List String) (osts : List StepStatus) :
    (newStatusesFor ns os osts).length = ns.length := by
  simp [newStatusesFor]

/-- Length of the recomputed notes list. -/
theorem newNotesFor_length (ns os onotes : List String) :
    (newNotesFor ns os onotes).length = ns.length := by
  simp [newNotesFor]

/-- `createPlan` preserves the parallel-lists invariant. -/
theorem createPlan_inv (st : PlanningState) (pid title : Option String)
    (steps : Option (List String)) (h : planInvariant st) :
    planInvariant (createPlan st pid title steps).1 := by
  by_cases h1 : truthyS pid = false
  · simpa [createPlan, h1] using h
  · by_cases h2 : (lookupPlan st.plans (pid.getD "")).isSome = true
    · simpa [createPlan, h1, h2] using h
    · by_cases h3 : truthyS title = false
      · simpa [createPlan, h1, h2, h3] using h
      · rcases steps with _ | ss
        · simpa [createPlan, h1, h2, h3] using h
        · intro pr hpr
          simp only [createPlan, h1, h2, h3] at hpr
          simp only [if_false, Bool.false_eq_true] at hpr
          rcases mem_setPlan _ _ _ _ hpr with hh | hh
          · simp [hh]
          · exact h pr hh

/-- `updatePlan` preserves the parallel-lists invariant. -/
theorem updatePlan_inv (st : PlanningState) (pid title : Option String)
    (steps : Option (List String)) (h : planInvariant st) :
    planInvariant (updatePlan st pid title steps).1 := by
  by_cases h1 : truthyS pid = false
  · simpa [updatePlan, h1] using h
  · rcases hlk : lookupPlan st.plans (pid.getD "") with _ | plan
    · simpa [updatePlan, h1, hlk] using h
    · have hmem := lookupPlan_mem _ _ _ hlk
      have hlen := h _ hmem
      rcases steps with _ | ss
      · intro pr hpr
        simp only [updatePlan, h1, hlk] at hpr
        rcases mem_setPlan _ _ _ _ hpr with hh | hh
        · by_cases ht : truthyS title = true <;> simpa [hh, ht] using hlen
        · exact h pr hh
      · intro pr hpr
        simp only [updatePlan, h1, hlk] at hpr
        rcases mem_setPlan _ _ _ _ hpr with hh | hh
        · simp [hh, newStatusesFor_length, newNotesFor_length]
        · exact h pr hh

/-- `markStep` preserves the parallel-lists invariant. -/
theorem markStep_inv (st : PlanningState) (pid : Option String)
    (idx : Option Int) (status : Option StepStatus) (notes : Option String)
    (h : planInvariant st) :
    planInvariant (markStep st pid idx status notes).1 := by
  rcases hres : resolvePlanId st pid with e | pid'
  · simpa [markStep, hres] using h
  · rcases hlk : lookupPlan st.plans pid' with _ | plan
    · simpa [markStep, hres, hlk] using h
    · rcases idx with _ | i
      · simpa [markStep, hres, hlk] using h
      · by_cases hrange : (i < 0 ∨ (plan.steps.length : Int) ≤ i)
        · simpa [markStep, hres, hlk, hrange] using h
        · have hmem := lookupPlan_mem _ _ _ hlk
          have hlen := h _ hmem
          intro pr hpr
          simp only [markStep, hres, hlk, if_neg hrange] at hpr
          rcases mem_setPlan _ _ _ _ hpr with hh | hh
          · rcases status with _ | s <;>
              by_cases hn : truthyS notes = true <;>
                simpa [hh, hn] using hlen
          · exact h pr hh

/-- `setActivePlan` preserves the parallel-lists invariant. -/
theorem setActivePlan_inv (st : PlanningState) (pid : Option String)
    (h : planInvariant st) : planInvariant (setActivePlan st pid).1 := by
  by_cases h1 : truthyS pid = false
  · simpa [setActivePlan, h1] using h
  · rcases hlk : lookupPlan st.plans (pid.getD "") with _ | plan
    · simpa [setActivePlan, h1, hlk] using h
    · intro pr hpr
      simp only [setActivePlan, h1, hlk] at hpr
      exact h pr hpr

/-- `getPlan` preserves the parallel-lists invariant. -/
theorem getPlan_inv (st : PlanningState) (pid : Option String)
    (h : planInvariant st) : planInvariant (getPlan st pid).1 := by
  rcases hres : resolvePlanId st pid with e | pid'
  · simpa [getPlan, hres] using h
  · rcases hlk : lookupPlan st.plans pid' with _ | plan <;>
      simpa [getPlan, hres, hlk] using h

/-- `deletePlan` preserves the parallel-lists invariant. -/
theorem deletePlan_inv (st : PlanningState) (pid : Option String)
    (h : planInvariant st) : planInvariant (deletePlan st pid).1 := by
  by_cases h1 : truthyS pid = false
  · simpa [deletePlan, h1] using h
  · rcases hlk : lookupPlan st.plans (pid.getD "") with _ | plan
    · simpa [deletePlan, h1, hlk] using h
    · by_cases hc : st.currentPlanId = Option.some (pid.getD "")
      · intro pr hpr
        simp only [deletePlan, h1, hlk, hc] at hpr
        simp only [if_false, Bool.false_eq_true, if_true] at hpr
        exact h pr (mem_erasePlan _ _ _ hpr)
      · intro pr hpr
        simp only [deletePlan, h1, hlk, hc] at hpr
        simp only [if_false, Bool.false_eq_true] at hpr
        exact h pr (mem_erasePlan _ _ _ hpr)

/-- Every planning command preserves the parallel-lists invariant. -/
theorem executeCmd_inv (st : PlanningState) (c : PCommand)
    (h : planInvariant st) : planInvariant (executeCmd st c).1 := by
  cases c with
  | create pid title steps => exact createPlan_inv st pid title steps h
  | update pid title steps => exact updatePlan_inv st pid title steps h
  | list => exact h
  | get pid => exact getPlan_inv st pid h
  | set_active pid => exact setActivePlan_inv st pid h
  | mark_step pid idx status notes => exact markStep_inv st pid idx status notes h
  | delete pid => exact deletePlan_inv st pid h

/-- Command sequences preserve the parallel-lists invariant. -/
theorem executeCmds_inv (cmds : List PCommand) :
    ∀ st : PlanningState, planInvariant st → planInvariant (executeCmds st cmds) := by
  induction cmds with
  | nil => intro st h; exact h
  | cons c rest ih =>
    intro st h
    exact ih (executeCmd st c).1 (executeCmd_inv st c h)

/-- C6: for every sequence of planning-tool commands run from a fresh tool,
every stored plan keeps `steps`, `step_statuses` and `step_notes` at equal
lengths after each command (success or failure) — every prefix of the
sequence is itself a sequence. -/
theorem planning_parallel_lists_invariant (cmds : List PCommand) :
    planInvariant (executeCmds PlanningState.init cmds) := by
  refine executeCmds_inv cmds PlanningState.init ?_
  intro pr hpr
  simp [PlanningState.init] at hpr

/-- C4: a `mark_step` call whose index is missing or outside
`[0, stepCount)` of the resolved plan fails with an error and leaves the
whole store untouched (every throw happens before any mutation). -/
theorem markStep_out_of_range_fails_unchanged
    (st : PlanningState) (planId : Option String) (pid : String) (plan : Plan)
    (idx : Option Int) (status : Option StepStatus) (notes : Option String)
    (hres : resolvePlanId st planId = Except.ok pid)
    (hplan : lookupPlan st.plans pid = Option.some plan)
    (hidx : idx = Option.none ∨
      ∃ i : Int, idx = Option.some i ∧ (i < 0 ∨ (plan.steps.length : Int) ≤ i)) :
    (markStep st planId idx status notes).1 = st ∧
    ∃ e, (markStep st planId idx status notes).2 = Except.error e := by
  simp only [markStep, hres, hplan]
  rcases hidx with h | ⟨i, hi, hrange⟩
  · subst h
    exact ⟨rfl, _, rfl⟩
  · subst hi
    dsimp only
    rw [if_pos hrange]
    exact ⟨rfl, _, rfl⟩

/-- C4 witness. -/
theorem markStep_out_of_range_fails_unchanged_witness :
    (markStep stEx (Option.some "p1") (Option.some 5) Option.none Option.none).1 = stEx ∧
    ∃ e, (markStep stEx (Option.some "p1") (Option.some 5) Option.none Option.none).2 =
      Except.error e :=
  markStep_out_of_range_fails_unchanged stEx (Option.some "p1") "p1" planEx
    (Option.some 5) Option.none Option.none rfl rfl
    (Or.inr ⟨5, rfl, Or.inr (by decide)⟩)

/-- The element of the recomputed status list at an in-range index. -/
theorem newStatusesFor_getElem (ns os : List String) (osts : List StepStatus)
    (i : Nat) (hi : i < ns.length) :
    (newStatusesFor ns os osts)[i]? =
      Option.some (if i < os.length ∧ ns[i]? = os[i]? then
        osts.getD i StepStatus.not_started else StepStatus.not_started) := by
  unfold newStatusesFor
  rw [List.getElem?_map, List.getElem?_range hi]
  rfl

/-- The element of the recomputed notes list at an in-range index. -/
theorem newNotesFor_getElem (ns os onotes : List String)
    (i : Nat) (hi : i < ns.length) :
    (newNotesFor ns os onotes)[i]? =
      Option.some (if i < os.length ∧ ns[i]? = os[i]? then
        onotes.getD i "" else "") := by
  unfold newNotesFor
  rw [List.getElem?_map, List.getElem?_range hi]
  rfl

/-- Identical text at an in-range index carries the old status over. -/
theorem newStatusesFor_preserved (ns os : List String) (osts : List StepStatus)
    (i : Nat) (hi : i < ns.length)
    (hc : i < os.length ∧ ns[i]? = os[i]?) (hsl : i < osts.length) :
    (newStatusesFor ns os osts)[i]? = osts[i]? := by
  rw [newStatusesFor_getElem _ _ _ _ hi, if_pos hc,
    List.getD_eq_getElem?_getD, List.getElem?_eq_getElem hsl]
  simp

/-- Differing or out-of-range text resets the status. -/
theorem newStatusesFor_reset (ns os : List String) (osts : List StepStatus)
    (i : Nat) (hi : i < ns.length)
    (hc : ¬(i < os.length ∧ ns[i]? = os[i]?)) :
    (newStatusesFor ns os osts)[i]? = Option.some StepStatus.not_started := by
  rw [newStatusesFor_getElem _ _ _ _ hi, if_neg hc]

/-- Identical text at an in-range index carries the old notes over. -/
theorem newNotesFor_preserved (ns os onotes : List String)
    (i : Nat) (hi : i < ns.length)
    (hc : i < os.length ∧ ns[i]? = os[i]?) (hnl : i < onotes.length) :
    (newNotesFor ns os onotes)[i]? = onotes[i]? := by
  rw [newNotesFor_getElem _ _ _ _ hi, if_pos hc,
    List.getD_eq_getElem?_getD, List.getElem?_eq_getElem hnl]
  simp

/-- Differing or out-of-range text resets the notes. -/
theorem newNotesFor_reset (ns os onotes : List String)
    (i : Nat) (hi : i < ns.length)
    (hc : ¬(i < os.length ∧ ns[i]? = os[i]?)) :
    (newNotesFor ns os onotes)[i]? = Option.some "" := by
  rw [newNotesFor_getElem _ _ _ _ hi, if_neg hc]

/-- C5: updating an existing plan with a steps list succeeds, and at every
index of the new list the status and notes are carried over exactly when the
index is in range of the old steps and the text there is identical;
otherwise they are reset to `not_started` and the empty string. -/
theorem updatePlan_preserves_iff_identical
    (st : PlanningState) (pid : String) (title : Option String)
    (ss : List String) (plan : Plan) (i : Nat)
    (hpid : truthyS (Option.some pid) = true)
    (hplan : lookupPlan st.plans pid = Option.some plan)
    (hst : plan.step_statuses.length = plan.steps.length)
    (hnt : plan.step_notes.length = plan.steps.length)
    (hi : i < ss.length) :
    (updatePlan st (Option.some pid) title (Option.some ss)).2 = Except.ok () ∧
    ∃ p', lookupPlan (updatePlan st (Option.some pid) title (Option.some ss)).1.plans pid =
        Option.some p' ∧
      p'.steps = ss ∧
      ((i < plan.steps.length ∧ ss[i]? = plan.steps[i]?) →
        p'.step_statuses[i]? = plan.step_statuses[i]? ∧
        p'.step_notes[i]? = plan.step_notes[i]?) ∧
      (¬(i < plan.steps.length ∧ ss[i]? = plan.steps[i]?) →
        p'.step_statuses[i]? = Option.some StepStatus.not_started ∧
        p'.step_notes[i]? = Option.some "") := by
  have h1 : ¬ truthyS (Option.some pid) = false := by simp [hpid]
  constructor
  · simp [updatePlan, h1, hplan]
  · by_cases ht : truthyS title = true
    · refine ⟨{ plan with
          title := title.getD "",
          steps := ss,
          step_statuses := newStatusesFor ss plan.steps plan.step_statuses,
          step_notes := newNotesFor ss plan.steps plan.step_notes },
        ?_, rfl, ?_, ?_⟩
      · simp only [updatePlan, h1, Option.getD_some, hplan, ht]
        simp only [if_false, if_true, Bool.true_eq_false, Bool.false_eq_true]
        exact lookupPlan_setPlan_self _ _ _
      · rintro ⟨hi2, heq⟩
        exact ⟨newStatusesFor_preserved _ _ _ _ hi ⟨hi2, heq⟩ (by omega),
          newNotesFor_preserved _ _ _ _ hi ⟨hi2, heq⟩ (by omega)⟩
      · intro hn
        exact ⟨newStatusesFor_reset _ _ _ _ hi hn, newNotesFor_reset _ _ _ _ hi hn⟩
    · refine ⟨{ plan with
          steps := ss,
          step_statuses := newStatusesFor ss plan.steps plan.step_statuses,
          step_notes := newNotesFor ss plan.steps plan.step_notes },
        ?_, rfl, ?_, ?_⟩
      · simp only [updatePlan, h1, Option.getD_some, hplan, ht]
        simp only [if_false, if_true, Bool.true_eq_false, Bool.false_eq_true]
        exact lookupPlan_setPlan_self _ _ _
      · rintro ⟨hi2, heq⟩
        exact ⟨newStatusesFor_preserved _ _ _ _ hi ⟨hi2, heq⟩ (by omega),
          newNotesFor_preserved _ _ _ _ hi ⟨hi2, heq⟩ (by omega)⟩
      · intro hn
        exact ⟨newStatusesFor_reset _ _ _ _ hi hn, newNotesFor_reset _ _ _ _ hi hn⟩

/-- C5 witness. -/
theorem updatePlan_preserves_iff_identical_witness :
    (updatePlan stEx (Option.some "p1") Option.none (Option.some ["a", "x"])).2 = Except.ok () ∧
    ∃ p', lookupPlan (updatePlan stEx (Option.some "p1") Option.none (Option.some ["a", "x"])).1.plans "p1" =
        Option.some p' ∧
      p'.steps = ["a", "x"] ∧
      ((0 < planEx.steps.length ∧ (["a", "x"] : List String)[0]? = planEx.steps[0]?) →
        p'.step_statuses[0]? = planEx.step_statuses[0]? ∧
        p'.step_notes[0]? = planEx.step_notes[0]?) ∧
      (¬(0 < planEx.steps.length ∧ (["a", "x"] : List String)[0]? = planEx.steps[0]?) →
        p'.step_statuses[0]? = Option.some StepStatus.not_started ∧
        p'.step_notes[0]? = Option.some "") :=
  updatePlan_preserves_iff_identical stEx "p1" Option.none ["a", "x"] planEx 0
    rfl rfl rfl rfl (by decide)

/-- `combineFields` with `concatenate` set never throws. -/
theorem combineFields_true (f g : Option String) :
    combineFields f g true = Except.ok (combineFieldsVal f g) := by
  unfold combineFields combineFieldsVal
  by_cases h : (truthyS f && truthyS g) = true
  · rw [if_pos h, if_pos h]
    rfl
  · rw [if_neg h, if_neg h]

/-- C8: `combine` concatenates a field populated (truthy, i.e. carrying a
non-empty string, the implementation's own notion) in both operands, keeps a
field populated in exactly one operand, and the `concatenate = false` path of
`combineFields` throws on two populated fields; `combine` itself passes
`concatenate = true` for every field, so this throw is unreachable from
`combine`. -/
theorem toolResult_combine_spec (t o : ToolResult) (f g u v : Option String)
    (hf : truthyS f = true) (hg : truthyS g = true)
    (hu : truthyS u = true) (hv : truthyS v = false) :
    ToolResult.combine t o = Except.ok
      (ToolResult.mk (combineFieldsVal t.output o.output)
        (combineFieldsVal t.error o.error)
        (combineFieldsVal t.system o.system)) ∧
    combineFieldsVal f g = Option.some (f.getD "" ++ g.getD "") ∧
    combineFieldsVal u v = u ∧
    combineFieldsVal v u = u ∧
    combineFields f g false = Except.error "Cannot combine tool results" := by
  refine ⟨?_, ?_, ?_, ?_, ?_⟩
  · unfold ToolResult.combine
    rw [combineFields_true, combineFields_true, combineFields_true]
    rfl
  · simp [combineFieldsVal, hf, hg]
  · simp [combineFieldsVal, jsOr, hu, hv]
  · simp [combineFieldsVal, jsOr, hu, hv]
  · simp [combineFields, hf, hg]

/-- C8 witness. -/
theorem toolResult_combine_spec_witness :
    ToolResult.combine (ToolResult.mk (Option.some "x") Option.none (Option.some "s"))
        (ToolResult.mk (Option.some "y") (Option.some "e") Option.none) = Except.ok
      (ToolResult.mk
        (combineFieldsVal (Option.some "x") (Option.some "y"))
        (combineFieldsVal Option.none (Option.some "e"))
        (combineFieldsVal (Option.some "s") Option.none)) ∧
    combineFieldsVal (Option.some "a") (Option.some "b") =
      Option.some ((Option.some "a").getD "" ++ (Option.some "b").getD "") ∧
    combineFieldsVal (Option.some "a") Option.none = Option.some "a" ∧
    combineFieldsVal Option.none (Option.some "a") = Option.some "a" ∧
    combineFields (Option.some "a") (Option.some "b") false =
      Except.error "Cannot combine tool results" :=
  toolResult_combine_spec
    (ToolResult.mk (Option.some "x") Option.none (Option.some "s"))
    (ToolResult.mk (Option.some "y") (Option.some "e") Option.none)
    (Option.some "a") (Option.some "b") (Option.some "a") Option.none
    rfl rfl rfl rfl

/-- C9: an in-range `mark_step` succeeds and only rewrites the targeted
plan: the steps list, title and id are untouched; a missing status leaves
the status list unchanged and a given status sets only the targeted index; a
falsy notes argument (including the empty string) leaves the notes
unchanged; every other index keeps its status and notes; the active-plan
pointer and all other plans are untouched. -/
theorem markStep_frame
    (st : PlanningState) (planId : Option String) (pid : String) (plan : Plan)
    (i : Int) (status : Option StepStatus) (notes : Option String) (j : Nat)
    (hres : resolvePlanId st planId = Except.ok pid)
    (hplan : lookupPlan st.plans pid = Option.some plan)
    (h0 : 0 ≤ i) (hlt : i < (plan.steps.length : Int)) :
    ∃ p',
      markStep st planId (Option.some i) status notes =
        ({ st with plans := setPlan st.plans pid p' }, Except.ok ()) ∧
      p'.steps = plan.steps ∧ p'.title = plan.title ∧ p'.plan_id = plan.plan_id ∧
      p'.step_statuses = (match status with
        | Option.some s => plan.step_statuses.set i.toNat s
        | Option.none => plan.step_statuses) ∧
      p'.step_notes = (if truthyS notes then
          plan.step_notes.set i.toNat (notes.getD "") else plan.step_notes) ∧
      (status = Option.none → p'.step_statuses = plan.step_statuses) ∧
      (notes = Option.some "" → p'.step_notes = plan.step_notes) ∧
      (j ≠ i.toNat →
        p'.step_statuses[j]? = plan.step_statuses[j]? ∧
        p'.step_notes[j]? = plan.step_notes[j]?) ∧
      ({ st with plans := setPlan st.plans pid p' } : PlanningState).currentPlanId =
        st.currentPlanId ∧
      (∀ k, k ≠ pid → lookupPlan (setPlan st.plans pid p') k = lookupPlan st.plans k) := by
  have hrange : ¬ (i < 0 ∨ (plan.steps.length : Int) ≤ i) := by omega
  rcases status with _ | s
  · by_cases hn : truthyS notes = true
    · refine ⟨{ plan with step_notes := plan.step_notes.set i.toNat (notes.getD "") },
        ?_, rfl, rfl, rfl, rfl, ?_, fun _ => rfl, ?_, ?_, rfl,
        fun k hk => lookupPlan_setPlan_ne _ _ _ _ hk⟩
      · simp [markStep, hres, hplan, if_neg hrange, hn]
      · simp [hn]
      · intro hne
        subst hne
        simp [truthyS] at hn
      · intro hj
        exact ⟨rfl, List.getElem?_set_ne (Ne.symm hj)⟩
    · refine ⟨plan, ?_, rfl, rfl, rfl, rfl, ?_, fun _ => rfl, fun _ => rfl,
        fun _ => ⟨rfl, rfl⟩, rfl, fun k hk => lookupPlan_setPlan_ne _ _ _ _ hk⟩
      · simp [markStep, hres, hplan, if_neg hrange, hn]
      · simp [hn]
  · by_cases hn : truthyS notes = true
    · refine ⟨{ plan with
          step_statuses := plan.step_statuses.set i.toNat s,
          step_notes := plan.step_notes.set i.toNat (notes.getD "") },
        ?_, rfl, rfl, rfl, rfl, ?_, ?_, ?_, ?_, rfl,
        fun k hk => lookupPlan_setPlan_ne _ _ _ _ hk⟩
      · simp [markStep, hres, hplan, if_neg hrange, hn]
      · simp [hn]
      · intro hcon; cases hcon
      · intro hne
        subst hne
        simp [truthyS] at hn
      · intro hj
        exact ⟨List.getElem?_set_ne (Ne.symm hj), List.getElem?_set_ne (Ne.symm hj)⟩
    · refine ⟨{ plan with step_statuses := plan.step_statuses.set i.toNat s },
        ?_, rfl, rfl, rfl, rfl, ?_, ?_, fun _ => rfl, ?_, rfl,
        fun k hk => lookupPlan_setPlan_ne _ _ _ _ hk⟩
      · simp [markStep, hres, hplan, if_neg hrange, hn]
      · simp [hn]
      · intro hcon; cases hcon
      · intro hj
        exact ⟨List.getElem?_set_ne (Ne.symm hj), rfl⟩

/-- C9 witness. -/
theorem markStep_frame_witness :
    ∃ p',
      markStep stEx (Option.some "p1") (Option.some 0)
          (Option.some StepStatus.completed) (Option.some "done") =
        ({ stEx with plans := setPlan stEx.plans "p1" p' }, Except.ok ()) ∧
      p'.steps = planEx.steps ∧ p'.title = planEx.title ∧ p'.plan_id = planEx.plan_id ∧
      p'.step_statuses = (match Option.some StepStatus.completed with
        | Option.some s => planEx.step_statuses.set (0 : Int).toNat s
        | Option.none => planEx.step_statuses) ∧
      p'.step_notes = (if truthyS (Option.some "done") then
          planEx.step_notes.set (0 : Int).toNat ((Option.some "done").getD "")
        else planEx.step_notes) ∧
      (Option.some StepStatus.completed = Option.none →
        p'.step_statuses = planEx.step_statuses) ∧
      (Option.some "done" = Option.some "" → p'.step_notes = planEx.step_notes) ∧
      ((1 : Nat) ≠ (0 : Int).toNat →
        p'.step_statuses[1]? = planEx.step_statuses[1]? ∧
        p'.step_notes[1]? = planEx.step_notes[1]?) ∧
      ({ stEx with plans := setPlan stEx.plans "p1" p' } : PlanningState).currentPlanId =
        stEx.currentPlanId ∧
      (∀ k, k ≠ "p1" → lookupPlan (setPlan stEx.plans "p1" p') k = lookupPlan stEx.plans k) :=
  markStep_frame stEx (Option.some "p1") "p1" planEx 0
    (Option.some StepStatus.completed) (Option.some "done") 1 rfl rfl
    (by decide) (by decide)

/-- C10 witness. -/
theorem run_never_resets_currentStep_witness :
    agentMaxed.currentStep ≤ (run stepNoop 3 agentMaxed Option.none).1.currentStep ∧
    (agentMaxed.maxSteps ≤ agentMaxed.currentStep →
      run stepNoop 3 agentMaxed Option.none =
        ({ (if truthyS Option.none then
              { agentMaxed with memory := agentMaxed.memory.addMessage (Message.userMessage ((Option.none : Option String).getD "")) }
            else agentMaxed) with state := AgentState.IDLE },
         Except.ok ("Terminated: Reached max steps (" ++ toString agentMaxed.maxSteps ++ ")"))) :=
  run_never_resets_currentStep stepNoop 3 agentMaxed Option.none
    (fun s => Nat.le_refl s.currentStep) rfl

end ArcticAI
